import Mathlib

/-!
Verification of the MultyQueueProcessor repository (CPQueue.h /
MultiQueueProcessor.h): a shallow embedding of the bounded per-key queue
`CPQueue` and of the dispatcher `CMultiQueueProcessor`, with theorems for
the behavioural claims about Push/Consume/Clear, queue creation,
subscription, and the worker loop's shutdown behaviour.

The C++ code is multithreaded; each public operation runs under the
object's mutexes, so a whole operation is the atomic unit of the
embedding.  Concurrency is modelled as an arbitrary interleaving of those
atomic operations (a list of operations applied in sequence).
-/

namespace MultyQueueProcessor

/-- `EFullMode` from CPQueue.h (lines 263-268): how the queue behaves when
it is full. `SKIP_LAST` skips the incoming element, `DROP_FIRST` pops the
first element and pushes the new one at the end, `WAIT` blocks the
producer until room appears. -/
inductive EFullMode : Type where
  | SKIP_LAST : EFullMode
  | DROP_FIRST : EFullMode
  | WAIT : EFullMode
deriving DecidableEq, Repr

/-- `MAX_CAPACITY` from CPQueue.h line 243: the default (and, via
`CreateQueue`, the only) queue capacity. -/
def MAX_CAPACITY : Nat := 1000

/-- State of one `CPQueue<T>` (CPQueue.h lines 274-428).  `cpq` is the
buffered FIFO sequence, head first (the C++ `std::queue<T>`); `maxSize`,
`full_mode` and `skip_if_no_consumer` are the constructor parameters;
`consumer` models the `IConsumer<T>*` member as an optional consumer
identity (`none` = `nullptr`).  The `notifier` pointer only raises the
dispatcher's `data_ready` flag and is modelled at the dispatcher level. -/
structure CPQueue (T : Type) : Type where
  cpq : List T
  maxSize : Nat
  full_mode : EFullMode
  skip_if_no_consumer : Bool
  consumer : Option Nat
deriving DecidableEq, Repr

namespace CPQueue

variable {T : Type}

/-- A freshly constructed queue (CPQueue.h lines 298-304): empty buffer,
no consumer attached. -/
def mkQueue (max_size : Nat) (fm : EFullMode) (skip_no_cons : Bool) :
    CPQueue T :=
  { cpq := [], maxSize := max_size, full_mode := fm,
    skip_if_no_consumer := skip_no_cons, consumer := none }

/-- `CPQueue::SetConsumer` (lines 312-316): replaces the attached consumer
(or detaches it when `cons = none`); no other field is touched. -/
def SetConsumer (q : CPQueue T) (cons : Option Nat) : CPQueue T :=
  { q with consumer := cons }

/-- `CPQueue::size` (lines 396-400). -/
def size (q : CPQueue T) : Nat :=
  q.cpq.length

/-- `CPQueue::Push` (lines 323-358).  Returns `none` when the calling
producer blocks (the `WAIT` branch's `cv.wait` with a full buffer: the
buffer is not mutated while the producer is suspended), otherwise `some`
of the post-state.  The code first drops the value if
`skip_if_no_consumer` holds and no consumer is attached; otherwise, when
`cpq.size() == maxSize`, it returns unchanged under `SKIP_LAST`, pops the
head under `DROP_FIRST`, or waits under `WAIT`; finally it appends the
value. -/
def Push (q : CPQueue T) (value : T) : Option (CPQueue T) :=
  if q.skip_if_no_consumer && q.consumer.isNone then
    some q
  else
    let is_full := q.cpq.length = q.maxSize
    if is_full then
      match q.full_mode with
      | EFullMode.SKIP_LAST => some q
      | EFullMode.DROP_FIRST => some { q with cpq := q.cpq.tail ++ [value] }
      | EFullMode.WAIT => none
    else
      some { q with cpq := q.cpq ++ [value] }

/-- `CPQueue::Consume` (lines 364-390).  Returns the post-state, the value
handed to the consumer's callback (if any), and the boolean result: `false`
with no state change when no consumer is attached or the buffer is empty;
otherwise the head is passed to the consumer, popped, and `true` is
returned. -/
def Consume (q : CPQueue T) : CPQueue T × Option T × Bool :=
  match q.consumer with
  | none => (q, none, false)
  | some _ =>
    match q.cpq with
    | [] => (q, none, false)
    | v :: rest => ({ q with cpq := rest }, some v, true)

/-- `CPQueue::Clear` (lines 405-414): resets the buffer to empty (`cpq = {}`)
and, under `WAIT`, wakes blocked producers; no other member is written. -/
def Clear (q : CPQueue T) : CPQueue T :=
  { q with cpq := [] }

/-- Pushing a whole list of values in order, propagating a producer block
(`none`) if one occurs. -/
def pushAll (q : CPQueue T) (vs : List T) : Option (CPQueue T) :=
  match vs with
  | [] => some q
  | v :: rest => (Push q v).bind (fun q1 => pushAll q1 rest)

end CPQueue

/-! ## The dispatcher `CMultiQueueProcessor` (MultiQueueProcessor.h) -/

/-- State of a `CMultiQueueProcessor<K, V>` (MultiQueueProcessor.h lines
21-225).  `keys` models the `std::set<KeyType> keys` of subscribed keys
(iteration order is irrelevant to the claims, so a duplicate-free list
suffices); `queues` models the `std::unordered_map<KeyType, QPtr>` as an
association list; `running` and `data_ready` are the two flags. -/
structure Processor (K V : Type) : Type where
  keys : List K
  queues : List (K × CPQueue V)
  running : Bool
  data_ready : Bool
deriving DecidableEq, Repr

namespace Processor

variable {K V : Type} [DecidableEq K]

/-- Lookup in the `queues` map. -/
def findQueue (qs : List (K × CPQueue V)) (id : K) : Option (CPQueue V) :=
  match qs with
  | [] => none
  | (k, q) :: rest => if k = id then some q else findQueue rest id

/-- In-place update of one entry of the `queues` map (the C++ code mutates
the pointed-to queue). -/
def updateQueue (qs : List (K × CPQueue V)) (id : K)
    (f : CPQueue V → CPQueue V) : List (K × CPQueue V) :=
  match qs with
  | [] => []
  | (k, q) :: rest =>
    if k = id then (k, f q) :: rest else (k, q) :: updateQueue rest id f

/-- `std::set::insert`: adds the key if not already present. -/
def insertKey (ks : List K) (id : K) : List K :=
  if id ∈ ks then ks else ks ++ [id]

/-- `std::set::erase`. -/
def eraseKey (ks : List K) (id : K) : List K :=
  ks.filter (fun k => k ≠ id)

/-- A freshly constructed processor: the constructor (lines 28-31) calls
`StartProcessing`, so `running` is true; both containers are empty. -/
def initProcessor : Processor K V :=
  { keys := [], queues := [], running := true, data_ready := false }

/-- `CMultiQueueProcessor::GetQueue` (lines 151-159): returns the queue's
raw pointer, or `nullptr` (`none`) when the key has no queue. -/
def GetQueue (p : Processor K V) (id : K) : Option (CPQueue V) :=
  findQueue p.queues id

/-- `CMultiQueueProcessor::Subscribe` (lines 68-78): attaches the consumer
to the key's queue when that queue exists, and unconditionally inserts the
key into `keys`. -/
def Subscribe (p : Processor K V) (id : K) (consumer : Nat) :
    Processor K V :=
  let queues1 :=
    match GetQueue p id with
    | some _ => updateQueue p.queues id
        (fun q => CPQueue.SetConsumer q (some consumer))
    | none => p.queues
  { p with queues := queues1, keys := insertKey p.keys id }

/-- `CMultiQueueProcessor::Unsubscribe` (lines 84-94). -/
def Unsubscribe (p : Processor K V) (id : K) : Processor K V :=
  let queues1 :=
    match GetQueue p id with
    | some _ => updateQueue p.queues id (fun q => CPQueue.SetConsumer q none)
    | none => p.queues
  { p with queues := queues1, keys := eraseKey p.keys id }

/-- `CMultiQueueProcessor::CreateQueue` (lines 103-113): emplaces a fresh
queue of capacity `MAX_CAPACITY` and returns `true` when the key is
absent; returns `false` with no effect when it is present. -/
def CreateQueue (p : Processor K V) (id : K) (fm : EFullMode)
    (skip_no_cons : Bool) : Processor K V × Bool :=
  match findQueue p.queues id with
  | some _ => (p, false)
  | none =>
    ({ p with
        queues := p.queues ++ [(id, CPQueue.mkQueue MAX_CAPACITY fm skip_no_cons)] },
      true)

/-- `CMultiQueueProcessor::StopProcessing` (lines 57-61). -/
def StopProcessing (p : Processor K V) : Processor K V :=
  { p with running := false }

end Processor

/-! ## Sequences of operations on one queue (for the capacity invariant) -/

/-- One atomic public operation on a single `CPQueue`. -/
inductive QOp (T : Type) : Type where
  | push : T → QOp T
  | consume : QOp T
  | clear : QOp T
  | setConsumer : Option Nat → QOp T
deriving DecidableEq, Repr

/-- Applying one operation.  A `Push` that blocks (`WAIT` with a full
buffer) leaves the buffer unchanged: while the producer is suspended in
`cv.wait` the buffer has not been mutated. -/
def applyQOp {T : Type} (q : CPQueue T) (op : QOp T) : CPQueue T :=
  match op with
  | QOp.push v => (CPQueue.Push q v).getD q
  | QOp.consume => (CPQueue.Consume q).1
  | QOp.clear => CPQueue.Clear q
  | QOp.setConsumer c => CPQueue.SetConsumer q c

/-- Running a sequence of operations. -/
def runQOps {T : Type} (q : CPQueue T) (ops : List (QOp T)) : CPQueue T :=
  ops.foldl applyQOp q

/-! ## Push/Consume traces on one queue (for the FIFO property) -/

/-- An interleaving of `Push` and `Consume` on one queue. -/
inductive PCOp (T : Type) : Type where
  | push : T → PCOp T
  | consume : PCOp T
deriving DecidableEq, Repr

/-- Running a Push/Consume interleaving, recording the sequence of values
handed to the consumer's callback, in order. -/
def runPC {T : Type} (q : CPQueue T) (ops : List (PCOp T)) :
    CPQueue T × List T :=
  match ops with
  | [] => (q, [])
  | PCOp.push v :: rest => runPC ((CPQueue.Push q v).getD q) rest
  | PCOp.consume :: rest =>
    let step := CPQueue.Consume q
    let tl := runPC step.1 rest
    (tl.1, step.2.1.toList ++ tl.2)

/-- The values pushed by an interleaving, in order. -/
def pcPushed {T : Type} (ops : List (PCOp T)) : List T :=
  ops.filterMap (fun op =>
    match op with
    | PCOp.push v => some v
    | PCOp.consume => none)

/-- "No value is lost to policy or no-consumer drops": at the moment of
every `push` of the interleaving, the no-consumer drop does not fire and
the buffer is strictly below capacity, so the push plainly appends. -/
def pcLossFree {T : Type} (q : CPQueue T) (ops : List (PCOp T)) : Bool :=
  match ops with
  | [] => true
  | PCOp.push v :: rest =>
    !(q.skip_if_no_consumer && q.consumer.isNone)
      && decide (q.cpq.length < q.maxSize)
      && pcLossFree { q with cpq := q.cpq ++ [v] } rest
  | PCOp.consume :: rest => pcLossFree (CPQueue.Consume q).1 rest

/-! ## The worker loop `CMultiQueueProcessor::Process` (lines 161-210)

The worker's control points, at the granularity at which a concurrent
`StopProcessing` can interleave:

* `top`: about to evaluate the `while (running)` condition (line 165);
* `waiting`: past that check, at the `cv.wait` of lines 168-171 (whose
  predicate is "`keys` nonempty or not `running`");
* `sweeping`: holding `keys_mtx`, iterating the `for` loop of lines
  175-208, `pending` being the keys not yet visited.  The loop body
  invokes `Consume` on each key's queue with **no** test of `running`;
  the inner `cv.wait` of line 205 (all queues empty, no `data_ready`)
  only pauses the sweep and returns when `data_ready` or not `running`,
  so it does not change which keys get a `Consume` call and is elided;
* `exited`: the `while` condition observed `running == false`. -/

inductive WPhase : Type where
  | top : WPhase
  | waiting : WPhase
  | sweeping : WPhase
  | exited : WPhase
deriving DecidableEq, Repr

/-- Worker-machine state: the dispatcher data the worker reads, the
remainder `pending` of the current sweep's key sequence, the control
phase, and the trace `events` of `Consume` invocations made so far, each
recorded with the value of `running` at that instant. -/
structure WorkerState (K V : Type) : Type where
  keys : List K
  queues : List (K × CPQueue V)
  running : Bool
  pending : List K
  phase : WPhase
  events : List (K × Bool)
deriving DecidableEq, Repr

/-- Interleaved atomic steps: the three worker control steps plus a
concurrent `StopProcessing`. -/
inductive WOp : Type where
  | stop : WOp
  | whileCheck : WOp
  | beginSweep : WOp
  | consumeStep : WOp
  | endSweep : WOp
deriving DecidableEq, Repr

/-- One step of the worker machine.  `stop` is `StopProcessing` (lines
57-61) setting `running` to false from another thread.  `whileCheck` is
line 165.  `beginSweep` is the `cv.wait` of lines 168-171 returning (its
predicate must hold) and the `for` loop of line 175 capturing the key
sequence.  `consumeStep` is one iteration of the loop body (lines
177-207): it invokes `Consume` on the head pending key's queue whether or
not `running` still holds.  `endSweep` is the loop finishing and control
returning to line 165. -/
def wstep {K V : Type} [DecidableEq K] (s : WorkerState K V) (op : WOp) :
    WorkerState K V :=
  match op with
  | WOp.stop => { s with running := false }
  | WOp.whileCheck =>
    if s.phase = WPhase.top then
      if s.running then { s with phase := WPhase.waiting }
      else { s with phase := WPhase.exited }
    else s
  | WOp.beginSweep =>
    if s.phase = WPhase.waiting && (!s.keys.isEmpty || !s.running) then
      { s with phase := WPhase.sweeping, pending := s.keys }
    else s
  | WOp.consumeStep =>
    if s.phase = WPhase.sweeping then
      match s.pending with
      | [] => s
      | k :: rest =>
        { s with
            queues := Processor.updateQueue s.queues k
              (fun q => (CPQueue.Consume q).1),
            pending := rest,
            events := s.events ++ [(k, s.running)] }
    else s
  | WOp.endSweep =>
    if s.phase = WPhase.sweeping && s.pending.isEmpty then
      { s with phase := WPhase.top }
    else s

/-- Running the worker machine over a schedule of steps. -/
def runWorker {K V : Type} [DecidableEq K] (s : WorkerState K V)
    (sched : List WOp) : WorkerState K V :=
  sched.foldl wstep s

/-- How many further `Consume` invocations the worker can still perform
once `running` is false: none from `top` (the `while` check fails), one
full snapshot from `waiting` (the check already passed; the `cv.wait`
predicate "not running" lets the sweep start), the unvisited remainder
of the snapshot from `sweeping`, none after exit. -/
def postStopBound {K V : Type} (s : WorkerState K V) : Nat :=
  match s.phase with
  | WPhase.top => 0
  | WPhase.waiting => s.keys.length
  | WPhase.sweeping => s.pending.length
  | WPhase.exited => 0

/-! ## Helper lemmas -/

/-- A `Push` whose no-consumer guard fires returns the queue unchanged. -/
theorem push_guard_drop {T : Type} (q : CPQueue T) (v : T)
    (h1 : q.skip_if_no_consumer = true) (h2 : q.consumer = none) :
    CPQueue.Push q v = some q := by
  simp [CPQueue.Push, h1, h2]

/-- A `Push` with the guard off and a non-full buffer plainly appends. -/
theorem push_appends {T : Type} (q : CPQueue T) (v : T)
    (hg : (q.skip_if_no_consumer && q.consumer.isNone) = false)
    (hlt : q.cpq.length < q.maxSize) :
    CPQueue.Push q v = some { q with cpq := q.cpq ++ [v] } := by
  simp [CPQueue.Push, hg, Nat.ne_of_lt hlt]

/-! ## C10: Clear empties the buffer and touches nothing else -/

/-- C10: for every queue state, `Clear` leaves the item count at zero
while the consumer attachment, the overflow policy, the capacity and the
`dropIfNoConsumer` configuration are exactly what they were before the
call (CPQueue.h lines 405-414 only assign `cpq = {}`). -/
theorem clear_frame {T : Type} (q : CPQueue T) :
    (CPQueue.Clear q).cpq = [] ∧
    (CPQueue.Clear q).consumer = q.consumer ∧
    (CPQueue.Clear q).full_mode = q.full_mode ∧
    (CPQueue.Clear q).maxSize = q.maxSize ∧
    (CPQueue.Clear q).skip_if_no_consumer = q.skip_if_no_consumer := by
  simp [CPQueue.Clear]

/-! ## C6: Consume's result and effect -/

/-- C6: `Consume` returns `false` exactly when no consumer is attached or
the buffer is empty, and then leaves the whole state (and delivers no
value); otherwise it pops the head, hands exactly that element to the
consumer, and returns `true` (CPQueue.h lines 364-390). -/
theorem consume_spec {T : Type} (q : CPQueue T) :
    ((CPQueue.Consume q).2.2 = false ↔ q.consumer = none ∨ q.cpq = []) ∧
    ((CPQueue.Consume q).2.2 = false → CPQueue.Consume q = (q, none, false)) ∧
    (∀ v rest, q.consumer ≠ none → q.cpq = v :: rest →
      CPQueue.Consume q = ({ q with cpq := rest }, some v, true)) := by
  refine ⟨?_, ?_, ?_⟩
  · cases hc : q.consumer with
    | none => simp [CPQueue.Consume, hc]
    | some c =>
      cases hq : q.cpq with
      | nil => simp [CPQueue.Consume, hc, hq]
      | cons v rest => simp [CPQueue.Consume, hc, hq]
  · cases hc : q.consumer with
    | none => intro _; simp [CPQueue.Consume, hc]
    | some c =>
      cases hq : q.cpq with
      | nil => intro _; simp [CPQueue.Consume, hc, hq]
      | cons v rest => simp [CPQueue.Consume, hc, hq]
  · intro v rest hc hq
    cases hcc : q.consumer with
    | none => exact absurd hcc hc
    | some c => simp [CPQueue.Consume, hcc, hq]

/-- Witness for C6 at a concrete queue: consuming from buffer `[5, 6]`
with consumer `1` attached pops `5`, delivers it, and returns `true`. -/
theorem consume_spec_witness :
    CPQueue.Consume
        ({ cpq := [5, 6], maxSize := 10, full_mode := EFullMode.SKIP_LAST,
           skip_if_no_consumer := true, consumer := some 1 } : CPQueue Nat)
      = ({ cpq := [6], maxSize := 10, full_mode := EFullMode.SKIP_LAST,
           skip_if_no_consumer := true, consumer := some 1 }, some 5, true) :=
  (consume_spec _).2.2 5 [6] (by simp) rfl

/-! ## C7: the no-consumer drop -/

/-- C7: with `dropIfNoConsumer` true and no consumer attached, any number
of pushes discards every value and changes nothing, so pushing `N` values
into an empty such queue and then attaching a consumer leaves zero
buffered items (CPQueue.h lines 325-330 and 312-316). -/
theorem push_no_consumer_drop {T : Type} (q : CPQueue T) (vs : List T)
    (c : Nat) (h1 : q.skip_if_no_consumer = true) (h2 : q.consumer = none) :
    CPQueue.pushAll q vs = some q ∧
    (q.cpq = [] →
      (CPQueue.SetConsumer ((CPQueue.pushAll q vs).getD q) (some c)).size
        = 0) := by
  have hall : CPQueue.pushAll q vs = some q := by
    induction vs with
    | nil => simp [CPQueue.pushAll]
    | cons v rest ih =>
      simp [CPQueue.pushAll, push_guard_drop q v h1 h2, ih]
  refine ⟨hall, fun hq => ?_⟩
  simp [hall, CPQueue.SetConsumer, CPQueue.size, hq]

/-- Witness for C7: four pushes into an empty no-consumer queue of
capacity 3 leave it unchanged; attaching a consumer finds zero items. -/
theorem push_no_consumer_drop_witness :
    CPQueue.pushAll
        (CPQueue.mkQueue 3 EFullMode.SKIP_LAST true : CPQueue Nat)
        [1, 2, 3, 4]
      = some (CPQueue.mkQueue 3 EFullMode.SKIP_LAST true) ∧
    (CPQueue.SetConsumer
        ((CPQueue.pushAll
            (CPQueue.mkQueue 3 EFullMode.SKIP_LAST true : CPQueue Nat)
            [1, 2, 3, 4]).getD (CPQueue.mkQueue 3 EFullMode.SKIP_LAST true))
        (some 0)).size = 0 :=
  ⟨(push_no_consumer_drop _ _ 0 rfl rfl).1,
   (push_no_consumer_drop _ _ 0 rfl rfl).2 rfl⟩

/-! ## C1: the capacity invariant -/

/-- Every single-queue operation leaves `maxSize` unchanged. -/
theorem applyQOp_maxSize {T : Type} (q : CPQueue T) (op : QOp T) :
    (applyQOp q op).maxSize = q.maxSize := by
  cases op with
  | push v =>
    simp only [applyQOp, CPQueue.Push]
    split
    · rfl
    · split
      · cases q.full_mode <;> rfl
      · rfl
  | consume =>
    cases hc : q.consumer with
    | none => simp [applyQOp, CPQueue.Consume, hc]
    | some c =>
      cases hq : q.cpq with
      | nil => simp [applyQOp, CPQueue.Consume, hc, hq]
      | cons v rest => simp [applyQOp, CPQueue.Consume, hc, hq]
  | clear => rfl
  | setConsumer c => rfl

/-- Every single-queue operation preserves `length cpq ≤ maxSize`, for a
positive capacity. -/
theorem applyQOp_size_le {T : Type} (q : CPQueue T) (op : QOp T)
    (hcap : 0 < q.maxSize) (h : q.cpq.length ≤ q.maxSize) :
    (applyQOp q op).cpq.length ≤ q.maxSize := by
  cases op with
  | push v =>
    simp only [applyQOp, CPQueue.Push]
    by_cases hg : (q.skip_if_no_consumer && q.consumer.isNone) = true
    · simp [hg, h]
    · by_cases hf : q.cpq.length = q.maxSize
      · cases hm : q.full_mode with
        | SKIP_LAST => simp [hg, hf, hm, h]
        | DROP_FIRST =>
          simp [hg, hf, hm, List.length_tail]
          omega
        | WAIT => simp [hg, hf, hm, h]
      · simp [hg, hf]
        omega
  | consume =>
    cases hc : q.consumer with
    | none => simpa [applyQOp, CPQueue.Consume, hc] using h
    | some c =>
      cases hq : q.cpq with
      | nil => simp [applyQOp, CPQueue.Consume, hc, hq]
      | cons v rest =>
        simp only [applyQOp, CPQueue.Consume, hc, hq]
        have := h
        rw [hq] at this
        simp at this
        omega
  | clear => simp [applyQOp, CPQueue.Clear]
  | setConsumer c => simpa [applyQOp, CPQueue.SetConsumer] using h

/-- Auxiliary form of C1 over an arbitrary start state. -/
theorem runQOps_size_le {T : Type} (ops : List (QOp T)) (q : CPQueue T)
    (hcap : 0 < q.maxSize) (h : q.cpq.length ≤ q.maxSize) :
    (runQOps q ops).cpq.length ≤ q.maxSize := by
  induction ops generalizing q with
  | nil => simpa [runQOps] using h
  | cons op rest ih =>
    have hstep := applyQOp_size_le q op hcap h
    have hmax := applyQOp_maxSize q op
    have := ih (applyQOp q op) (by rw [hmax]; exact hcap) (by rw [hmax]; exact hstep)
    rw [hmax] at this
    simpa [runQOps, List.foldl_cons] using this

/-- C1: starting from a freshly created queue of positive capacity (the
repository always uses `MAX_CAPACITY = 1000`), after any sequence of
`Push` (under any of the three overflow policies), `Consume`, `Clear` and
`SetConsumer` operations the number of buffered items never exceeds the
capacity. -/
theorem capacity_invariant {T : Type} (cap : Nat) (fm : EFullMode)
    (snc : Bool) (ops : List (QOp T)) (hcap : 0 < cap) :
    (runQOps (CPQueue.mkQueue cap fm snc) ops).size ≤ cap := by
  have := runQOps_size_le ops (CPQueue.mkQueue cap fm snc) hcap (by simp [CPQueue.mkQueue])
  simpa [CPQueue.size, CPQueue.mkQueue] using this

/-- Witness for C1: an overflowing operation sequence against capacity 2
(drop-oldest policy, consumer attached) stays within capacity. -/
theorem capacity_invariant_witness :
    0 < 2 ∧
    (runQOps (CPQueue.mkQueue 2 EFullMode.DROP_FIRST false)
        [QOp.setConsumer (some 0), QOp.push 1, QOp.push 2, QOp.push 3,
         QOp.consume, QOp.push 4, QOp.push 5]).size ≤ 2 :=
  ⟨by decide,
   capacity_invariant 2 EFullMode.DROP_FIRST false _ (by decide)⟩

/-! ## C4 and C5: the SkipNewest and DropOldest overflow policies -/

/-- Under `SKIP_LAST` with the no-consumer guard off, pushing a list of
values keeps the first `maxSize` elements of buffer-then-pushes. -/
theorem pushAll_skip_take {T : Type} (vs : List T) (q : CPQueue T)
    (hm : q.full_mode = EFullMode.SKIP_LAST)
    (hg : (q.skip_if_no_consumer && q.consumer.isNone) = false)
    (h : q.cpq.length ≤ q.maxSize) :
    CPQueue.pushAll q vs
      = some { q with cpq := (q.cpq ++ vs).take q.maxSize } := by
  induction vs generalizing q with
  | nil => simp [CPQueue.pushAll, List.take_of_length_le h]
  | cons v rest ih =>
    by_cases hf : q.cpq.length = q.maxSize
    · have hpush : CPQueue.Push q v = some q := by
        simp [CPQueue.Push, hg, hf, hm]
      have htake : ∀ ws : List T, (q.cpq ++ ws).take q.maxSize = q.cpq :=
        fun ws => List.take_left' hf
      simp [CPQueue.pushAll, hpush, ih q hm hg h, htake]
    · have hlt : q.cpq.length < q.maxSize := Nat.lt_of_le_of_ne h hf
      have hpush := push_appends q v hg hlt
      have hrec := ih { q with cpq := q.cpq ++ [v] } hm hg
        (by simpa using hlt)
      simp [CPQueue.pushAll, hpush, hrec, List.append_assoc]

/-- C4: under `SkipNewest` with a consumer attached or `dropIfNoConsumer`
false, a `Push` against a full buffer discards the incoming value and
leaves the buffer unchanged, and pushing `capacity + 1` values into an
empty queue with no draining leaves exactly the first `capacity` pushed
values, in order (CPQueue.h lines 332-340). -/
theorem skip_newest_spec {T : Type} (q : CPQueue T) (v : T) (vs : List T)
    (hm : q.full_mode = EFullMode.SKIP_LAST)
    (hg : (q.skip_if_no_consumer && q.consumer.isNone) = false) :
    (q.cpq.length = q.maxSize → CPQueue.Push q v = some q) ∧
    (q.cpq = [] → vs.length = q.maxSize + 1 →
      CPQueue.pushAll q vs = some { q with cpq := vs.take q.maxSize }) := by
  constructor
  · intro hf
    simp [CPQueue.Push, hg, hf, hm]
  · intro hq hlen
    have := pushAll_skip_take vs q hm hg (by simp [hq])
    simpa [hq] using this

/-- Witness for C4: pushing 3 values into an empty skip-newest queue of
capacity 2 (consumer attached) buffers exactly the first 2. -/
theorem skip_newest_spec_witness :
    CPQueue.pushAll
        ({ cpq := [], maxSize := 2, full_mode := EFullMode.SKIP_LAST,
           skip_if_no_consumer := true, consumer := some 0 } : CPQueue Nat)
        [10, 20, 30]
      = some { cpq := [10, 20], maxSize := 2,
               full_mode := EFullMode.SKIP_LAST,
               skip_if_no_consumer := true, consumer := some 0 } :=
  (skip_newest_spec _ 0 [10, 20, 30] rfl (by decide)).2 rfl rfl

/-- `pushAll` splits over list append. -/
theorem pushAll_append {T : Type} (q : CPQueue T) (vs1 vs2 : List T) :
    CPQueue.pushAll q (vs1 ++ vs2)
      = (CPQueue.pushAll q vs1).bind (fun q1 => CPQueue.pushAll q1 vs2) := by
  induction vs1 generalizing q with
  | nil => simp [CPQueue.pushAll]
  | cons v rest ih =>
    simp only [List.cons_append, CPQueue.pushAll]
    cases CPQueue.Push q v with
    | none => simp
    | some q1 => simp [ih q1]

/-- With the guard off and room for the whole list, pushing plainly
appends every value (any policy). -/
theorem pushAll_fill {T : Type} (vs : List T) (q : CPQueue T)
    (hg : (q.skip_if_no_consumer && q.consumer.isNone) = false)
    (h : q.cpq.length + vs.length ≤ q.maxSize) :
    CPQueue.pushAll q vs = some { q with cpq := q.cpq ++ vs } := by
  induction vs generalizing q with
  | nil => simp [CPQueue.pushAll]
  | cons v rest ih =>
    simp only [List.length_cons] at h
    have hlt : q.cpq.length < q.maxSize := by omega
    have hpush := push_appends q v hg hlt
    have hrec := ih { q with cpq := q.cpq ++ [v] } hg
      (by simp; omega)
    simp [CPQueue.pushAll, hpush, hrec, List.append_assoc]

/-- Under `DROP_FIRST` with the guard off, pushing onto a buffer that is
exactly at (positive) capacity slides the window: the result is the last
`maxSize` elements of buffer-then-pushes. -/
theorem pushAll_drop_slide {T : Type} (vs : List T) (q : CPQueue T)
    (hm : q.full_mode = EFullMode.DROP_FIRST)
    (hg : (q.skip_if_no_consumer && q.consumer.isNone) = false)
    (hfull : q.cpq.length = q.maxSize) (hcap : 0 < q.maxSize) :
    CPQueue.pushAll q vs
      = some { q with cpq := (q.cpq ++ vs).drop vs.length } := by
  induction vs generalizing q with
  | nil => simp [CPQueue.pushAll]
  | cons v rest ih =>
    cases hq : q.cpq with
    | nil => rw [hq] at hfull; simp at hfull; omega
    | cons h0 t =>
      have hfull' : t.length + 1 = q.maxSize := by
        rw [hq] at hfull
        simpa using hfull
      have hpush : CPQueue.Push q v
          = some { q with cpq := t ++ [v] } := by
        simp [CPQueue.Push, hg, hm, hq, hfull']
      have hlen : (t ++ [v]).length = q.maxSize := by
        simpa using hfull'
      have hrec := ih { q with cpq := t ++ [v] } hm hg hlen hcap
      rw [CPQueue.pushAll, hpush]
      simp only [Option.some_bind, hrec, hq]
      simp [List.append_assoc]

/-- C5: under `DropOldest` with a consumer attached or `dropIfNoConsumer`
false, a `Push` against a full buffer evicts the head and appends the new
value, and pushing `capacity + 1` values into an empty queue with no
draining leaves exactly the last `capacity` pushed values, in order
(CPQueue.h lines 332-353). -/
theorem drop_oldest_spec {T : Type} (q : CPQueue T) (v : T) (vs : List T)
    (hm : q.full_mode = EFullMode.DROP_FIRST)
    (hg : (q.skip_if_no_consumer && q.consumer.isNone) = false)
    (hcap : 0 < q.maxSize) :
    (q.cpq.length = q.maxSize →
      CPQueue.Push q v = some { q with cpq := q.cpq.tail ++ [v] }) ∧
    (q.cpq = [] → vs.length = q.maxSize + 1 →
      CPQueue.pushAll q vs = some { q with cpq := vs.drop 1 }) := by
  constructor
  · intro hf
    simp [CPQueue.Push, hg, hf, hm]
  · intro hq hlen
    have hsplit : vs = vs.take q.maxSize ++ vs.drop q.maxSize :=
      (List.take_append_drop q.maxSize vs).symm
    have hlen_take : (vs.take q.maxSize).length = q.maxSize := by
      simp [hlen]
    have hfill := pushAll_fill (vs.take q.maxSize) q hg
      (by simp [hq, hlen_take])
    have hslide := pushAll_drop_slide (vs.drop q.maxSize)
      { q with cpq := vs.take q.maxSize } hm hg (by simpa using hlen_take)
      hcap
    rw [hsplit, pushAll_append, hfill]
    simp only [Option.some_bind, hq, List.nil_append] at hslide ⊢
    rw [hslide]
    have hdl : (vs.drop q.maxSize).length = 1 := by
      simp [hlen]
    rw [List.take_append_drop, hdl]

/-- Witness for C5: pushing 3 values into an empty drop-oldest queue of
capacity 2 (consumer attached) buffers exactly the last 2. -/
theorem drop_oldest_spec_witness :
    CPQueue.pushAll
        ({ cpq := [], maxSize := 2, full_mode := EFullMode.DROP_FIRST,
           skip_if_no_consumer := true, consumer := some 0 } : CPQueue Nat)
        [10, 20, 30]
      = some { cpq := [20, 30], maxSize := 2,
               full_mode := EFullMode.DROP_FIRST,
               skip_if_no_consumer := true, consumer := some 0 } :=
  (drop_oldest_spec _ 0 [10, 20, 30] rfl (by decide) (by decide)).2 rfl rfl

/-! ## C8: CreateQueue -/

/-- Appending a binding for an absent key makes it findable. -/
theorem findQueue_append_self {K V : Type} [DecidableEq K]
    (qs : List (K × CPQueue V)) (id : K) (q : CPQueue V)
    (h : Processor.findQueue qs id = none) :
    Processor.findQueue (qs ++ [(id, q)]) id = some q := by
  induction qs with
  | nil => simp [Processor.findQueue]
  | cons kq rest ih =>
    obtain ⟨k, q0⟩ := kq
    by_cases hk : k = id
    · rw [Processor.findQueue, if_pos hk] at h
      exact absurd h (by simp)
    · rw [Processor.findQueue, if_neg hk] at h
      simpa [Processor.findQueue, hk] using ih h

/-- C8: `CreateQueue` on an absent key appends a fresh queue — empty, with
capacity `MAX_CAPACITY = 1000`, the requested policy and drop flag, no
consumer — and returns `true`; on a present key it returns `false` and
the whole processor state (hence the existing queue's items, policy and
consumer) is untouched (MultiQueueProcessor.h lines 103-113, CPQueue.h
line 243). -/
theorem createQueue_spec {K V : Type} [DecidableEq K] (p : Processor K V)
    (id : K) (fm : EFullMode) (snc : Bool) :
    (Processor.findQueue p.queues id = none →
      Processor.CreateQueue p id fm snc
        = ({ p with queues :=
              p.queues ++ [(id, CPQueue.mkQueue MAX_CAPACITY fm snc)] },
            true) ∧
      Processor.GetQueue (Processor.CreateQueue p id fm snc).1 id
        = some (CPQueue.mkQueue MAX_CAPACITY fm snc) ∧
      (CPQueue.mkQueue MAX_CAPACITY fm snc : CPQueue V).cpq = [] ∧
      (CPQueue.mkQueue MAX_CAPACITY fm snc : CPQueue V).maxSize = 1000) ∧
    (Processor.findQueue p.queues id ≠ none →
      Processor.CreateQueue p id fm snc = (p, false)) := by
  constructor
  · intro habs
    refine ⟨?_, ?_, rfl, rfl⟩
    · simp [Processor.CreateQueue, habs]
    · simp only [Processor.CreateQueue, habs, Processor.GetQueue]
      exact findQueue_append_self p.queues id _ habs
  · intro hpres
    cases hfind : Processor.findQueue p.queues id with
    | none => exact absurd hfind hpres
    | some q0 => simp [Processor.CreateQueue, hfind]

/-- Witness for C8: creating key 0 on a fresh processor succeeds and
yields the empty 1000-capacity queue; creating it again fails with no
effect. -/
theorem createQueue_spec_witness :
    (Processor.CreateQueue (Processor.initProcessor : Processor Nat Nat) 0
        EFullMode.SKIP_LAST true).2 = true ∧
    Processor.GetQueue
        (Processor.CreateQueue
          (Processor.initProcessor : Processor Nat Nat) 0
          EFullMode.SKIP_LAST true).1 0
      = some (CPQueue.mkQueue MAX_CAPACITY EFullMode.SKIP_LAST true) ∧
    Processor.CreateQueue
        (Processor.CreateQueue
          (Processor.initProcessor : Processor Nat Nat) 0
          EFullMode.SKIP_LAST true).1 0 EFullMode.DROP_FIRST false
      = ((Processor.CreateQueue
          (Processor.initProcessor : Processor Nat Nat) 0
          EFullMode.SKIP_LAST true).1, false) :=
  ⟨by rw [(createQueue_spec Processor.initProcessor 0
        EFullMode.SKIP_LAST true).1 (by decide) |>.1],
   (createQueue_spec Processor.initProcessor 0
      EFullMode.SKIP_LAST true).1 (by decide) |>.2.1,
   (createQueue_spec _ 0 EFullMode.DROP_FIRST false).2 (by decide)⟩

/-! ## C2: Subscribe with an unknown key -/

/-- C2 (about MultiQueueProcessor.h lines 68-78 and 175-183): `Subscribe`
on a key with no queue does record the key in `keys` — but the worker's
sweep then fetches that key's queue and gets `nullptr`: `GetQueue`
returns `none`, so the `assert(q)` of line 182 fails on this reachable
state.  Moreover, after the queue is later created, its `consumer` field
is still `none` (no automatic attachment), so its `Consume` returns
`false`: the subscription is not live.  Evaluated here at the failing
input: a fresh processor, `Subscribe 0`, then `CreateQueue 0`. -/
theorem subscribe_unknown_key_breaks_sweep :
    (Processor.Subscribe (Processor.initProcessor : Processor Nat Nat) 0 7).keys
      = [0] ∧
    Processor.GetQueue
        (Processor.Subscribe
          (Processor.initProcessor : Processor Nat Nat) 0 7) 0
      = none ∧
    (∃ q : CPQueue Nat,
      Processor.GetQueue
          (Processor.CreateQueue
            (Processor.Subscribe
              (Processor.initProcessor : Processor Nat Nat) 0 7)
            0 EFullMode.SKIP_LAST true).1 0
        = some q ∧
      q.consumer = none ∧
      (CPQueue.Consume q).2.2 = false) :=
  ⟨by decide, by decide,
   ⟨CPQueue.mkQueue MAX_CAPACITY EFullMode.SKIP_LAST true,
    by decide, by decide, by decide⟩⟩

/-! ## C9: FIFO end to end -/

/-- C9: over any interleaving of `Push` and `Consume` in which no value
is lost to policy or no-consumer drops, the delivered sequence followed
by what remains buffered equals the initial buffer followed by the pushed
sequence; in particular, starting from an empty buffer and draining it
completely, the sequence of values delivered to the consumer equals the
sequence of values pushed, in order (CPQueue.h lines 323-358, 364-390). -/
theorem fifo_spec {T : Type} (ops : List (PCOp T)) (q : CPQueue T)
    (h : pcLossFree q ops = true) :
    (runPC q ops).2 ++ (runPC q ops).1.cpq = q.cpq ++ pcPushed ops ∧
    (q.cpq = [] → (runPC q ops).1.cpq = [] →
      (runPC q ops).2 = pcPushed ops) := by
  have main : (runPC q ops).2 ++ (runPC q ops).1.cpq
      = q.cpq ++ pcPushed ops := by
    induction ops generalizing q with
    | nil => simp [runPC, pcPushed]
    | cons op rest ih =>
      cases op with
      | push v =>
        rw [pcLossFree] at h
        have hg : (q.skip_if_no_consumer && q.consumer.isNone) = false := by
          cases hgv : (q.skip_if_no_consumer && q.consumer.isNone) with
          | false => rfl
          | true => rw [hgv] at h; simp at h
        have hlt : q.cpq.length < q.maxSize := by
          rw [hg] at h
          simp at h
          exact h.1
        have hrest : pcLossFree { q with cpq := q.cpq ++ [v] } rest = true := by
          rw [hg] at h
          simp at h
          exact h.2
        have hpush := push_appends q v hg hlt
        have := ih { q with cpq := q.cpq ++ [v] } hrest
        simp only [runPC, hpush, Option.getD_some]
        rw [this]
        simp [pcPushed, List.filterMap_cons]
      | consume =>
        rw [pcLossFree] at h
        have hpushed : pcPushed (PCOp.consume :: rest) = pcPushed rest := by
          simp [pcPushed, List.filterMap_cons]
        cases hc : q.consumer with
        | none =>
          have hcq : CPQueue.Consume q = (q, none, false) := by
            simp [CPQueue.Consume, hc]
          rw [hcq] at h
          have := ih q h
          simp [runPC, hcq, this, hpushed]
        | some c =>
          cases hq : q.cpq with
          | nil =>
            have hcq : CPQueue.Consume q = (q, none, false) := by
              simp [CPQueue.Consume, hc, hq]
            rw [hcq] at h
            have := ih q h
            simp [runPC, hcq, this, hpushed, hq]
          | cons v tl =>
            have hcq : CPQueue.Consume q
                = ({ q with cpq := tl }, some v, true) := by
              simp [CPQueue.Consume, hc, hq]
            rw [hcq] at h
            have := ih { q with cpq := tl } h
            simp only [runPC, hcq] at this ⊢
            simp [this, hpushed, hq]
  exact ⟨main, fun h1 h2 => by simpa [h1, h2] using main⟩

/-- Witness for C9: a loss-free interleaving (capacity 2, consumer
attached) delivers exactly the pushed values `[1, 2, 3]`, in order. -/
theorem fifo_spec_witness :
    pcLossFree
        ({ cpq := [], maxSize := 2, full_mode := EFullMode.SKIP_LAST,
           skip_if_no_consumer := true, consumer := some 0 } : CPQueue Nat)
        [PCOp.push 1, PCOp.push 2, PCOp.consume, PCOp.push 3,
         PCOp.consume, PCOp.consume] = true ∧
    (runPC
        ({ cpq := [], maxSize := 2, full_mode := EFullMode.SKIP_LAST,
           skip_if_no_consumer := true, consumer := some 0 } : CPQueue Nat)
        [PCOp.push 1, PCOp.push 2, PCOp.consume, PCOp.push 3,
         PCOp.consume, PCOp.consume]).2
      = pcPushed [PCOp.push 1, PCOp.push 2, PCOp.consume, PCOp.push 3,
         PCOp.consume, PCOp.consume] :=
  ⟨by decide,
   (fifo_spec _ _ (by decide)).2 rfl (by decide)⟩

/-! ## C3: Consume after StopProcessing -/

/-- Counterexample to C3 as stated: an execution of the worker machine in
which `StopProcessing` lands mid-sweep (after key 0's iteration) and the
`for` loop of lines 175-208 — which never tests `running` — still invokes
`Consume` for key 1, i.e. not every `Consume` invocation happens while
`running` is true. -/
theorem worker_consume_after_stop_cex :
    ¬ (∀ e ∈ (runWorker
        ({ keys := [0, 1],
           queues := [(0, CPQueue.mkQueue 2 EFullMode.SKIP_LAST false),
                      (1, CPQueue.mkQueue 2 EFullMode.SKIP_LAST false)],
           running := true, pending := [], phase := WPhase.top,
           events := [] } : WorkerState Nat Nat)
        [WOp.whileCheck, WOp.beginSweep, WOp.consumeStep, WOp.stop,
         WOp.consumeStep, WOp.endSweep]).events, e.2 = true) := by
  decide

/-- Once `running` is false, no step of the worker machine turns it back
on (`StartProcessing` is outside the scope of a post-stop execution). -/
theorem wstep_running_false {K V : Type} [DecidableEq K]
    (s : WorkerState K V) (op : WOp) (h : s.running = false) :
    (wstep s op).running = false := by
  cases op with
  | stop => simp [wstep]
  | whileCheck =>
    simp only [wstep]
    split
    · split <;> simp [h]
    · exact h
  | beginSweep =>
    simp only [wstep]
    split
    · simp [h]
    · exact h
  | consumeStep =>
    simp only [wstep]
    split
    · cases hp : s.pending <;> simp [h]
    · exact h
  | endSweep =>
    simp only [wstep]
    split <;> simp [h]

/-- With `running` false, each step keeps `events.length + postStopBound`
from growing. -/
theorem wstep_post_stop {K V : Type} [DecidableEq K]
    (s : WorkerState K V) (op : WOp) (h : s.running = false) :
    (wstep s op).events.length + postStopBound (wstep s op)
      ≤ s.events.length + postStopBound s := by
  cases op with
  | stop => simp [wstep, postStopBound]
  | whileCheck =>
    simp only [wstep]
    split
    · rename_i hp
      rw [if_neg (by simp [h])]
      simp [postStopBound, hp]
    · exact le_refl _
  | beginSweep =>
    simp only [wstep]
    split
    · rename_i hcond
      have hw : s.phase = WPhase.waiting := by
        have := hcond
        simp only [Bool.and_eq_true, decide_eq_true_eq] at this
        exact this.1
      simp [postStopBound, hw]
    · exact le_refl _
  | consumeStep =>
    simp only [wstep]
    split
    · rename_i hp
      cases hpend : s.pending with
      | nil => exact le_refl _
      | cons k rest =>
        simp [postStopBound, hp, hpend]
        omega
    · exact le_refl _
  | endSweep =>
    simp only [wstep]
    split
    · rename_i hcond
      have hco : s.phase = WPhase.sweeping ∧ s.pending.isEmpty = true := by
        simpa [Bool.and_eq_true] using hcond
      have hpe : s.pending = [] := List.isEmpty_iff.mp hco.2
      simp [postStopBound, hco.1, hpe]
    · exact le_refl _

/-- C3 amended: after `StopProcessing` the worker performs at most one
further (partial or full) sweep.  For every state with `running` false —
whatever the control point — and every subsequent schedule, the number of
`Consume` invocations grows by at most `postStopBound`: the unvisited
remainder of the in-flight snapshot when the stop lands mid-sweep, one
full snapshot when it lands between the `while` check and the sweep, and
none once the worker is back at the `while` check; and once that last
sweep completes, no further `Consume` occurs. -/
theorem worker_stop_bounds_consumes {K V : Type} [DecidableEq K]
    (s : WorkerState K V) (sched : List WOp) (h : s.running = false) :
    (runWorker s sched).events.length
      ≤ s.events.length + postStopBound s := by
  induction sched generalizing s with
  | nil => simp [runWorker]
  | cons op rest ih =>
    have h1 := ih (wstep s op) (wstep_running_false s op h)
    have h2 := wstep_post_stop s op h
    simp only [runWorker, List.foldl_cons] at h1 ⊢
    exact le_trans h1 h2

/-- Witness for the amended C3: stopped mid-sweep with one key left in
the snapshot, the worker makes at most one further `Consume` invocation
over an adversarial schedule that even tries to begin a new sweep. -/
theorem worker_stop_bounds_consumes_witness :
    ({ keys := [0, 1],
       queues := [(0, CPQueue.mkQueue 2 EFullMode.SKIP_LAST false),
                  (1, CPQueue.mkQueue 2 EFullMode.SKIP_LAST false)],
       running := false, pending := [1], phase := WPhase.sweeping,
       events := [(0, true)] } : WorkerState Nat Nat).running = false ∧
    (runWorker
        ({ keys := [0, 1],
           queues := [(0, CPQueue.mkQueue 2 EFullMode.SKIP_LAST false),
                      (1, CPQueue.mkQueue 2 EFullMode.SKIP_LAST false)],
           running := false, pending := [1], phase := WPhase.sweeping,
           events := [(0, true)] } : WorkerState Nat Nat)
        [WOp.consumeStep, WOp.endSweep, WOp.whileCheck, WOp.beginSweep,
         WOp.consumeStep]).events.length
      ≤ ({ keys := [0, 1],
           queues := [(0, CPQueue.mkQueue 2 EFullMode.SKIP_LAST false),
                      (1, CPQueue.mkQueue 2 EFullMode.SKIP_LAST false)],
           running := false, pending := [1], phase := WPhase.sweeping,
           events := [(0, true)] } : WorkerState Nat Nat).events.length
        + postStopBound
            ({ keys := [0, 1],
               queues := [(0, CPQueue.mkQueue 2 EFullMode.SKIP_LAST false),
                          (1, CPQueue.mkQueue 2 EFullMode.SKIP_LAST false)],
               running := false, pending := [1], phase := WPhase.sweeping,
               events := [(0, true)] } : WorkerState Nat Nat) :=
  ⟨rfl, worker_stop_bounds_consumes _ _ rfl⟩

end MultyQueueProcessor
